import Mathlib

/-!
Verification of the Intcode virtual machine in `src/intcode.rs` of
AdventOfCode2019.

Shallow embedding conventions:
* `Word` (Rust `i64`) is modelled as `Int`; the `as usize` cast performed by
  `get`/`set`/`pointer` is modelled exactly as two's-complement truncation,
  `castUsize w = (w % 2^64).toNat`.
* Rust panics are modelled by `Except Panic`, with one constructor per panic
  site of the source (`Param::new`'s unrecognised-mode panic, `fetch`'s
  unknown-opcode panic, `pointer`'s invalid-parameter panic, the
  capacity-overflow panic raised by `Vec::resize` when the requested
  length exceeds `isize::MAX` bytes, i.e. `8 * len > 2^63 - 1` for a
  `Vec<i64>`, and the failure of `make_pointer`'s `pos + 1` at
  `pos = usize::MAX`, where the `usize` addition itself overflows before
  any resize capacity check is reached).
* `VecDeque` is modelled as a list: `push_back` appends, `pop_front` takes
  the head.
* `run`, a potentially unbounded loop in the source, takes explicit fuel and
  returns `none` when the fuel runs out.
-/

deriving instance DecidableEq for Except

namespace Intcode

/-- `pub struct Program(Vec<Word>)` with `type Word = i64`. -/
structure Program where
  code : List Int
deriving Repr, DecidableEq

/-- The panic sites of `intcode.rs` (and of `Vec::resize` inside it). -/
inductive Panic where
  /-- `Param::new`: `panic!(("unrecognised mode", mode))`. -/
  | unrecognisedMode
  /-- `Emulator::fetch`: `panic!(("unknown opcode", opcode))`. -/
  | unknownOpcode
  /-- `Emulator::pointer`: `panic!("invalid parameter for pointer")`. -/
  | invalidPointerParam
  /-- `Vec::resize` when the new capacity exceeds `isize::MAX` bytes. -/
  | capacityOverflow
  /-- `Emulator::make_pointer` computing `pos + 1` on `usize` at
  `pos = usize::MAX` (reached via address `-1`): in a debug build the
  addition panics with overflow; in a release build it wraps to 0, the
  `resize(0, 0)` truncates the vector, and the following indexing panics
  out of bounds. Either way the program fails at this point, never through
  the resize capacity check. -/
  | usizeOverflow
deriving Repr, DecidableEq

/-- `const MODE_POSITION: Word = 0`. -/
def MODE_POSITION : Int := 0

/-- `const MODE_IMMEDIATE: Word = 1`. -/
def MODE_IMMEDIATE : Int := 1

/-- `const MODE_RELATIVE: Word = 2`. -/
def MODE_RELATIVE : Int := 2

/-- `enum Param`. -/
inductive Param where
  | Position : Int → Param
  | Immediate : Int → Param
  | Relative : Int → Param
deriving Repr, DecidableEq

/-- `Param::new(mode, value)`; the `_ => panic!(...)` arm becomes
`.error .unrecognisedMode`. -/
def Param.new (mode : Int) (value : Int) : Except Panic Param :=
  if mode = MODE_POSITION then .ok (.Position value)
  else if mode = MODE_IMMEDIATE then .ok (.Immediate value)
  else if mode = MODE_RELATIVE then .ok (.Relative value)
  else .error .unrecognisedMode

/-- `enum Op`. -/
inductive Op where
  | Add : Param → Param → Param → Op
  | Mul : Param → Param → Param → Op
  | Read : Param → Op
  | Write : Param → Op
  | JumpIfTrue : Param → Param → Op
  | JumpIfFalse : Param → Param → Op
  | LessThan : Param → Param → Param → Op
  | Equal : Param → Param → Param → Op
  | AdjustBase : Param → Op
  | Halt : Op
deriving Repr, DecidableEq

/-- `Op::size(&self) -> Word`. -/
def Op.size : Op → Int
  | .Add _ _ _ => 4
  | .Mul _ _ _ => 4
  | .Read _ => 2
  | .Write _ => 2
  | .JumpIfTrue _ _ => 3
  | .JumpIfFalse _ _ => 3
  | .LessThan _ _ _ => 4
  | .Equal _ _ _ => 4
  | .AdjustBase _ => 2
  | .Halt => 1

/-- `pub enum State`. -/
inductive State where
  | Continue
  | Halt
  | ReadWait
deriving Repr, DecidableEq

/-- `pub struct Emulator`. `VecDeque` buffers are lists (front = head). -/
structure Emulator where
  memory : List Int
  ip : Int
  sp : Int
  input_buffer : List Int
  output_buffer : List Int
deriving Repr, DecidableEq

/-- Rust's `w as usize` on an `i64`: two's-complement truncation to 64 bits. -/
def castUsize (w : Int) : Nat := (w % 2 ^ 64).toNat

/-- `Emulator::new(program)`. -/
def Emulator.new (program : Program) : Emulator :=
  { memory := program.code
    ip := 0
    sp := 0
    input_buffer := []
    output_buffer := [] }

/-- `Emulator::make_pointer(pos: usize)`: `if pos >= len { resize(pos + 1, 0) }`.
The argument `pos + 1` is computed on `usize`, so at `pos = usize::MAX =
2^64 - 1` the addition itself fails (see `Panic.usizeOverflow`) before any
resize happens. Below that, `Vec::resize` panics with a capacity overflow
when the requested capacity exceeds `isize::MAX` bytes; for a `Vec<i64>`
that is `8 * (pos + 1) > 2^63 - 1`. On success the memory is the old memory
extended with zeros up to length `pos + 1`, and `pos` is a valid index. -/
def Emulator.make_pointer (e : Emulator) (pos : Nat) : Except Panic Emulator :=
  if e.memory.length ≤ pos then
    if pos = 2 ^ 64 - 1 then .error .usizeOverflow
    else if 2 ^ 63 - 1 < 8 * (pos + 1) then .error .capacityOverflow
    else .ok { e with memory := e.memory ++ List.replicate (pos + 1 - e.memory.length) 0 }
  else .ok e

/-- `Emulator::len`. -/
def Emulator.len (e : Emulator) : Nat := e.memory.length

/-- `Emulator::set(pos, v)`: `*self.make_pointer(pos as usize) = v`. -/
def Emulator.set (e : Emulator) (pos : Int) (v : Int) : Except Panic Emulator :=
  (e.make_pointer (castUsize pos)).map fun (e' : Emulator) =>
    { e' with memory := e'.memory.set (castUsize pos) v }

/-- `Emulator::get(pos)`: `self.memory.get(pos as usize).cloned().unwrap_or(0)`. -/
def Emulator.get (e : Emulator) (pos : Int) : Int :=
  e.memory.getD (castUsize pos) 0

/-- `Emulator::write(v)`: push an input value on the back of the input queue. -/
def Emulator.write (e : Emulator) (v : Int) : Emulator :=
  { e with input_buffer := e.input_buffer ++ [v] }

/-- `Emulator::read()`: pop an output value from the front of the output queue. -/
def Emulator.read (e : Emulator) : Option Int × Emulator :=
  match e.output_buffer with
  | [] => (none, e)
  | v :: rest => (some v, { e with output_buffer := rest })

/-- `Emulator::fetch(pos)`. The `mode!` macro expands to
`modes / 10_i64.pow(i - 1) % 10` (truncating `i64` division/remainder, hence
`Int.tdiv`/`Int.tmod`), the `p!` macro to `Param::new(mode!(i), self.get(pos + i))`,
and the opcode match's `_` arm to `.error .unknownOpcode`. -/
def Emulator.fetch (e : Emulator) (pos : Int) : Except Panic Op :=
  let op := e.get pos
  let modes := op.tdiv 100
  let opcode := op.tmod 100
  let mode := fun (i : Nat) => (modes.tdiv (10 ^ (i - 1))).tmod 10
  let p := fun (i : Nat) => Param.new (mode i) (e.get (pos + (i : Int)))
  if opcode = 1 then do pure (Op.Add (← p 1) (← p 2) (← p 3))
  else if opcode = 2 then do pure (Op.Mul (← p 1) (← p 2) (← p 3))
  else if opcode = 3 then do pure (Op.Read (← p 1))
  else if opcode = 4 then do pure (Op.Write (← p 1))
  else if opcode = 5 then do pure (Op.JumpIfTrue (← p 1) (← p 2))
  else if opcode = 6 then do pure (Op.JumpIfFalse (← p 1) (← p 2))
  else if opcode = 7 then do pure (Op.LessThan (← p 1) (← p 2) (← p 3))
  else if opcode = 8 then do pure (Op.Equal (← p 1) (← p 2) (← p 3))
  else if opcode = 9 then do pure (Op.AdjustBase (← p 1))
  else if opcode = 99 then pure Op.Halt
  else .error .unknownOpcode

/-- `Emulator::value(param)`. -/
def Emulator.value (e : Emulator) : Param → Int
  | .Position p => e.get p
  | .Immediate v => v
  | .Relative r => e.get (e.sp + r)

/-- `Emulator::pointer(param)`: returns the (possibly grown) emulator together
with the resolved index of the mutable cell; the `_ => panic!(...)` arm becomes
`.error .invalidPointerParam`. -/
def Emulator.pointer (e : Emulator) : Param → Except Panic (Emulator × Nat)
  | .Position p => (e.make_pointer (castUsize p)).map fun (e' : Emulator) => (e', castUsize p)
  | .Relative r => (e.make_pointer (castUsize (e.sp + r))).map fun (e' : Emulator) => (e', castUsize (e.sp + r))
  | .Immediate _ => .error .invalidPointerParam

/-- The Rust pattern `*self.pointer(param) = v`. -/
def Emulator.store (e : Emulator) (param : Param) (v : Int) : Except Panic Emulator :=
  (e.pointer param).map fun (pe : Emulator × Nat) =>
    { pe.1 with memory := pe.1.memory.set pe.2 v }

/-- `Emulator::step()`. The shared tail `self.ip += op.size(); return Continue`
of the source is inlined into each non-returning branch. -/
def Emulator.step (e : Emulator) : Except Panic (State × Emulator) :=
  match e.fetch e.ip with
  | .error p => .error p
  | .ok (.Add a b c) =>
      (e.store c (e.value a + e.value b)).map fun (e' : Emulator) =>
        (State.Continue, { e' with ip := e'.ip + (Op.Add a b c).size })
  | .ok (.Mul a b c) =>
      (e.store c (e.value a * e.value b)).map fun (e' : Emulator) =>
        (State.Continue, { e' with ip := e'.ip + (Op.Mul a b c).size })
  | .ok (.Read a) =>
      match e.input_buffer with
      | v :: rest =>
          (({ e with input_buffer := rest }).store a v).map fun (e' : Emulator) =>
            (State.Continue, { e' with ip := e'.ip + (Op.Read a).size })
      | [] => .ok (State.ReadWait, e)
  | .ok (.Write a) =>
      .ok (State.Continue,
        { e with output_buffer := e.output_buffer ++ [e.value a],
                 ip := e.ip + (Op.Write a).size })
  | .ok (.JumpIfTrue test dest) =>
      if e.value test ≠ 0 then .ok (State.Continue, { e with ip := e.value dest })
      else .ok (State.Continue, { e with ip := e.ip + (Op.JumpIfTrue test dest).size })
  | .ok (.JumpIfFalse test dest) =>
      if e.value test = 0 then .ok (State.Continue, { e with ip := e.value dest })
      else .ok (State.Continue, { e with ip := e.ip + (Op.JumpIfFalse test dest).size })
  | .ok (.LessThan a b c) =>
      (e.store c (if e.value a < e.value b then 1 else 0)).map fun (e' : Emulator) =>
        (State.Continue, { e' with ip := e'.ip + (Op.LessThan a b c).size })
  | .ok (.Equal a b c) =>
      (e.store c (if e.value a = e.value b then 1 else 0)).map fun (e' : Emulator) =>
        (State.Continue, { e' with ip := e'.ip + (Op.Equal a b c).size })
  | .ok (.AdjustBase a) =>
      .ok (State.Continue,
        { e with sp := e.sp + e.value a,
                 ip := e.ip + (Op.AdjustBase a).size })
  | .ok .Halt => .ok (State.Halt, e)

/-- `Emulator::run()`, with explicit fuel (`none` = fuel exhausted; the source
loops unconditionally). -/
def Emulator.run (e : Emulator) : Nat → Option (Except Panic (State × Emulator))
  | 0 => none
  | fuel + 1 =>
      match e.step with
      | .ok (State.Continue, e') => e'.run fuel
      | .ok (State.Halt, e') => some (.ok (State.Halt, e'))
      | .ok (State.ReadWait, e') => some (.ok (State.ReadWait, e'))
      | .error p => some (.error p)

/-! ## Specification-side decoder (for the refinement claim about `fetch`) -/

/-- The mode digit of the `i`-th (1-indexed) parameter as the spec words it:
`(w / 100) / 10^(i-1) % 10` with truncating division. -/
def specModeDigit (w : Int) (i : Nat) : Int :=
  ((w.tdiv 100).tdiv (10 ^ (i - 1))).tmod 10

/-- The spec's digit table: 0 = Position, 1 = Immediate, 2 = Relative, any
other digit is invalid (fatal). -/
def specParamOfDigit (digit : Int) (v : Int) : Except Panic Param :=
  if digit = 0 then .ok (.Position v)
  else if digit = 1 then .ok (.Immediate v)
  else if digit = 2 then .ok (.Relative v)
  else .error .unrecognisedMode

/-- Decoding as the spec states it: opcode `w % 100`, and the `i`-th parameter
is the mode digit `specModeDigit w i` applied to `operand i` (the stored value
at `ip + i`), with the spec's opcode/arity table. -/
def specDecode (w : Int) (operand : Nat → Int) : Except Panic Op :=
  let opcode := w.tmod 100
  let p := fun (i : Nat) => specParamOfDigit (specModeDigit w i) (operand i)
  if opcode = 1 then do pure (Op.Add (← p 1) (← p 2) (← p 3))
  else if opcode = 2 then do pure (Op.Mul (← p 1) (← p 2) (← p 3))
  else if opcode = 3 then do pure (Op.Read (← p 1))
  else if opcode = 4 then do pure (Op.Write (← p 1))
  else if opcode = 5 then do pure (Op.JumpIfTrue (← p 1) (← p 2))
  else if opcode = 6 then do pure (Op.JumpIfFalse (← p 1) (← p 2))
  else if opcode = 7 then do pure (Op.LessThan (← p 1) (← p 2) (← p 3))
  else if opcode = 8 then do pure (Op.Equal (← p 1) (← p 2) (← p 3))
  else if opcode = 9 then do pure (Op.AdjustBase (← p 1))
  else if opcode = 99 then pure Op.Halt
  else .error .unknownOpcode

/-- Rust `s.split(",")` for the single-character separator, at the
character-list level: splits on every comma, keeping empty tokens (so the
empty input gives one empty token, as in Rust). -/
def splitComma : List Char → List (List Char)
  | [] => [[]]
  | c :: rest =>
      if c = ',' then [] :: splitComma rest
      else
        match splitComma rest with
        | [] => [[c]]
        | t :: ts => (c :: t) :: ts

/-- Rust `token.parse::<i64>()`: an optional sign followed by one or more
decimal digits, rejecting anything else (including whitespace), with the
value required to fit in `i64`. `none` is a parse error. -/
def parseI64 (cs : List Char) : Option Int :=
  let (neg, digits) :=
    match cs with
    | '-' :: ds => (true, ds)
    | '+' :: ds => (false, ds)
    | ds => (false, ds)
  if digits.isEmpty then none
  else if digits.all (fun c => c.isDigit) then
    let n : Nat := digits.foldl (fun acc c => acc * 10 + (c.toNat - 48)) 0
    let v : Int := if neg then -(n : Int) else (n : Int)
    if -(2 ^ 63) ≤ v ∧ v ≤ 2 ^ 63 - 1 then some v else none
  else none

/-- `Program::from_str`: `s.split(",").map(|x| x.parse::<Word>().unwrap()).collect()`.
The outer `Option` is the panic of the `.unwrap()`: a failed token parse
panics inside `from_str` instead of being returned to the caller. The
declared error type (`ParseIntError`, modelled here as `String`) is never
constructed — the function only ever returns `Ok`. -/
def Program.from_str (s : String) : Option (Except String Program) :=
  match (splitComma s.toList).mapM parseI64 with
  | some code => some (.ok ⟨code⟩)
  | none => none

/-- Statement helper: the two jump instructions (the ones whose `step` branch
may overwrite `ip` instead of advancing it by the instruction size). -/
def Op.isJump : Op → Bool
  | .JumpIfTrue _ _ => true
  | .JumpIfFalse _ _ => true
  | _ => false

/-- Statement helper: the parameter count of each instruction, as in the
spec's opcode table. -/
def Op.arity : Op → Int
  | .Add _ _ _ => 3
  | .Mul _ _ _ => 3
  | .Read _ => 1
  | .Write _ => 1
  | .JumpIfTrue _ _ => 2
  | .JumpIfFalse _ _ => 2
  | .LessThan _ _ _ => 3
  | .Equal _ _ _ => 3
  | .AdjustBase _ => 1
  | .Halt => 0

/-! ## Helper lemmas -/

lemma castUsize_of_nonneg {a : Int} (h0 : 0 ≤ a) (h1 : a < 2 ^ 63) :
    castUsize a = a.toNat := by
  have h1' : a < 9223372036854775808 := by
    calc a < 2 ^ 63 := h1
    _ = 9223372036854775808 := by norm_num
  simp only [castUsize]
  omega

lemma castUsize_of_neg {a : Int} (h0 : -(2 ^ 63) ≤ a) (h1 : a < 0) :
    2 ^ 63 ≤ castUsize a ∧ castUsize a < 2 ^ 64 := by
  have h0' : -9223372036854775808 ≤ a := by
    calc (-9223372036854775808 : Int) = -(2 ^ 63) := by norm_num
    _ ≤ a := h0
  have e63 : (2 : Nat) ^ 63 = 9223372036854775808 := by norm_num
  have e64 : (2 : Nat) ^ 64 = 18446744073709551616 := by norm_num
  rw [e63, e64]
  simp only [castUsize]
  omega

lemma make_pointer_fields {e e' : Emulator} {pos : Nat}
    (h : e.make_pointer pos = .ok e') :
    e'.ip = e.ip ∧ e'.sp = e.sp ∧ e'.input_buffer = e.input_buffer ∧
      e'.output_buffer = e.output_buffer := by
  unfold Emulator.make_pointer at h
  split at h
  · split at h
    · exact Except.noConfusion h
    · split at h
      · exact Except.noConfusion h
      · injection h with h
        subst h
        exact ⟨rfl, rfl, rfl, rfl⟩
  · injection h with h
    subst h
    exact ⟨rfl, rfl, rfl, rfl⟩

lemma make_pointer_error {e : Emulator} {pos : Nat} {pc : Panic}
    (h : e.make_pointer pos = .error pc) :
    pc = .usizeOverflow ∨ pc = .capacityOverflow := by
  unfold Emulator.make_pointer at h
  split at h
  · split at h
    · injection h with h
      exact Or.inl h.symm
    · split at h
      · injection h with h
        exact Or.inr h.symm
      · exact Except.noConfusion h
  · exact Except.noConfusion h

lemma map_eq_ok {x : Except Panic Emulator} {f : Emulator → State × Emulator}
    {p : State × Emulator} (h : x.map f = .ok p) :
    ∃ e2, x = .ok e2 ∧ f e2 = p := by
  cases x with
  | error q => exact Except.noConfusion h
  | ok e2 =>
      refine ⟨e2, rfl, ?_⟩
      injection h

lemma store_fields {e e' : Emulator} {p : Param} {v : Int}
    (h : e.store p v = .ok e') :
    e'.ip = e.ip ∧ e'.sp = e.sp ∧ e'.input_buffer = e.input_buffer ∧
      e'.output_buffer = e.output_buffer := by
  cases p with
  | Position q =>
      simp only [Emulator.store, Emulator.pointer] at h
      cases hmp : e.make_pointer (castUsize q) with
      | error pc =>
          rw [hmp] at h
          simp only [Except.map] at h
          exact Except.noConfusion h
      | ok e2 =>
          rw [hmp] at h
          simp only [Except.map] at h
          injection h with h
          subst h
          obtain ⟨h1, h2, h3, h4⟩ := make_pointer_fields hmp
          exact ⟨h1, h2, h3, h4⟩
  | Relative r =>
      simp only [Emulator.store, Emulator.pointer] at h
      cases hmp : e.make_pointer (castUsize (e.sp + r)) with
      | error pc =>
          rw [hmp] at h
          simp only [Except.map] at h
          exact Except.noConfusion h
      | ok e2 =>
          rw [hmp] at h
          simp only [Except.map] at h
          injection h with h
          subst h
          obtain ⟨h1, h2, h3, h4⟩ := make_pointer_fields hmp
          exact ⟨h1, h2, h3, h4⟩
  | Immediate w =>
      simp only [Emulator.store, Emulator.pointer, Except.map] at h
      exact Except.noConfusion h

lemma replicate_set_last (v : Int) : ∀ k : Nat,
    (List.replicate (k + 1) (0 : Int)).set k v = List.replicate k 0 ++ [v] := by
  intro k
  induction k with
  | zero => rfl
  | succ k ih =>
      rw [List.replicate_succ, List.set_cons_succ, ih, List.replicate_succ,
        List.cons_append]

lemma append_replicate_set (l : List Int) (k : Nat) (v : Int) :
    (l ++ List.replicate (k + 1) 0).set (l.length + k) v
      = l ++ (List.replicate k 0 ++ [v]) := by
  induction l with
  | nil => simpa using replicate_set_last v k
  | cons a l ih =>
      have hlen : (a :: l).length + k = (l.length + k) + 1 := by
        simp [List.length_cons]
        omega
      rw [List.cons_append, hlen, List.set_cons_succ, ih, List.cons_append]


lemma castUsize_coe {i : Nat} (h : i < 9223372036854775808) : castUsize (i : Int) = i := by
  simp only [castUsize]
  omega

/-! ## Claim theorems -/

/-- C1, counterexample: the instruction word 1002 has opcode `1002 % 100 = 2`,
which the decode table maps to Mul, so `fetch` does not decode it to
`Add(Position(4), Immediate(3), Position(4))` as the claim (following the
repository's vacuous `assert_match!` test) states. -/
theorem fetch_1002_decodes_to_Mul_not_Add :
    (Emulator.new ⟨[1002, 4, 3, 4]⟩).fetch 0 ≠
      .ok (Op.Add (.Position 4) (.Immediate 3) (.Position 4)) := by decide

/-- C1 (amended): decoding at any address yields opcode `w % 100` (truncating
division) and, for the i-th 1-indexed parameter, the mode digit
`(w / 100) / 10^(i-1) % 10` applied to the stored value at `ip + i`, with
digit 0 = Position, 1 = Immediate, 2 = Relative and absent digits defaulting
to Position (this is `specDecode`); and word 1002 with operands `[4,3,4]`
decodes to `Mul(Position(4), Immediate(3), Position(4))` — Mul, because the
opcode digits of 1002 are 02, not Add as the claim's example says. -/
theorem fetch_implements_spec_decode :
    (∀ (e : Emulator) (pos : Int),
        e.fetch pos = specDecode (e.get pos) (fun i => e.get (pos + (i : Int)))) ∧
    (Emulator.new ⟨[1002, 4, 3, 4]⟩).fetch 0 =
      .ok (Op.Mul (.Position 4) (.Immediate 3) (.Position 4)) :=
  ⟨fun _ _ => rfl, rfl⟩

/-- C2, counterexample: `set` does fail for a non-negative address: at address
`2^62` the resize to `2^62 + 1` cells of 8 bytes exceeds `isize::MAX` bytes and
`Vec::resize` panics with a capacity overflow. -/
theorem set_large_address_capacity_overflow :
    (Emulator.new ⟨[0]⟩).set (2 ^ 62) 5 = .error .capacityOverflow := by decide

/-- C2 (amended): for every non-negative (i64) address `a`, `get a` returns 0
when `a` is at or beyond the current memory length and the stored value
otherwise, without failing; and `set a v` with `a` at or beyond the current
length — provided the grown vector of `a + 1` cells stays within the Vec
capacity limit of `isize::MAX` bytes — succeeds, grows memory to `a + 1`
cells, fills every newly created cell with 0, stores `v` at `a`, and leaves
every intermediate address between the old length and `a` reading as 0 (and
all old cells unchanged). -/
theorem get_set_growable_memory :
    (∀ (e : Emulator) (a : Int), 0 ≤ a → a < 2 ^ 63 →
      (e.memory.length ≤ a.toNat → e.get a = 0) ∧
      (∀ h : a.toNat < e.memory.length, e.get a = e.memory.get ⟨a.toNat, h⟩)) ∧
    (∀ (e : Emulator) (a v : Int), 0 ≤ a → a < 2 ^ 63 →
      e.memory.length ≤ a.toNat → 8 * (a.toNat + 1) ≤ 2 ^ 63 - 1 →
      ∃ e', e.set a v = .ok e' ∧
        e'.memory.length = a.toNat + 1 ∧
        e'.get a = v ∧
        (∀ i : Nat, e.memory.length ≤ i → i < a.toNat → e'.get (i : Int) = 0) ∧
        (∀ i : Nat, i < e.memory.length → e'.get (i : Int) = e.get (i : Int))) := by
  constructor
  · intro e a h0 h1
    have hc := castUsize_of_nonneg h0 h1
    constructor
    · intro hlen
      unfold Emulator.get
      rw [hc]
      exact List.getD_eq_default _ _ hlen
    · intro h
      unfold Emulator.get
      rw [hc]
      rw [List.getD_eq_getElem _ _ h, List.get_eq_getElem]
  · intro e a v h0 h1 hlen hcap
    have hc := castUsize_of_nonneg h0 h1
    have hA : a.toNat < 9223372036854775808 := by
      have h1' : a < 9223372036854775808 := by
        calc a < 2 ^ 63 := h1
        _ = 9223372036854775808 := by norm_num
      omega
    have hcapN : 8 * (a.toNat + 1) ≤ 9223372036854775807 := by
      calc 8 * (a.toNat + 1) ≤ 2 ^ 63 - 1 := hcap
      _ = 9223372036854775807 := by norm_num
    obtain ⟨k, hk⟩ : ∃ k, a.toNat = e.memory.length + k :=
      ⟨a.toNat - e.memory.length, by omega⟩
    have hcap' : ¬ (2 ^ 63 - 1 < 8 * (e.memory.length + k + 1)) := by
      have hn : (2 : Nat) ^ 63 - 1 = 9223372036854775807 := by norm_num
      rw [hn]
      omega
    refine ⟨{ e with memory := e.memory ++ (List.replicate k 0 ++ [v]) },
      ?_, ?_, ?_, ?_, ?_⟩
    · unfold Emulator.set Emulator.make_pointer
      rw [hc, hk]
      rw [if_pos (by omega : e.memory.length ≤ e.memory.length + k)]
      rw [if_neg (by
        rw [show (2 : Nat) ^ 64 - 1 = 18446744073709551615 from by norm_num]
        omega)]
      rw [if_neg hcap']
      simp only [Except.map]
      have hrep : e.memory.length + k + 1 - e.memory.length = k + 1 := by omega
      rw [hrep, append_replicate_set]
    · simp only [List.length_append, List.length_replicate, List.length_cons,
        List.length_nil]
      omega
    · unfold Emulator.get
      rw [hc, hk]
      simp only []
      rw [List.getD_append_right _ _ _ _ (by omega)]
      have hik : e.memory.length + k - e.memory.length = k := by omega
      rw [hik]
      rw [List.getD_append_right _ _ _ _ (by simp [List.length_replicate])]
      simp [List.length_replicate]
    · intro i hi1 hi2
      unfold Emulator.get
      rw [castUsize_coe (by omega)]
      simp only []
      rw [List.getD_append_right _ _ _ _ (by omega)]
      rw [List.getD_append _ _ _ _ (by simp only [List.length_replicate]; omega)]
      simp
    · intro i hi
      unfold Emulator.get
      rw [castUsize_coe (by omega)]
      simp only []
      rw [List.getD_append _ _ _ _ (by omega)]

/-- C2, witness: the amended theorem applied to memory `[7]`, address 3,
value 5. -/
theorem get_set_growable_memory_witness :
    (Emulator.new ⟨[7]⟩).get 3 = 0 ∧
    (∃ e', (Emulator.new ⟨[7]⟩).set 3 5 = .ok e' ∧
      e'.memory.length = (3 : Int).toNat + 1 ∧
      e'.get 3 = 5 ∧
      (∀ i : Nat, (Emulator.new ⟨[7]⟩).memory.length ≤ i → i < (3 : Int).toNat →
        e'.get (i : Int) = 0) ∧
      (∀ i : Nat, i < (Emulator.new ⟨[7]⟩).memory.length →
        e'.get (i : Int) = (Emulator.new ⟨[7]⟩).get (i : Int))) :=
  ⟨(get_set_growable_memory.1 _ 3 (by norm_num) (by norm_num)).1 (by decide),
   get_set_growable_memory.2 _ 3 5 (by norm_num) (by norm_num) (by decide)
     (by decide)⟩

/-- C8, counterexample: `get` does not fail for a negative address — it
returns 0: the `i64 -> usize` cast wraps `-1` to `2^64 - 1`, far beyond the
memory length, and `.unwrap_or(0)` turns the out-of-range lookup into 0. -/
theorem get_negative_address_returns_zero :
    (Emulator.new ⟨[5, 6, 7]⟩).get (-1) = 0 := by decide

/-- C8 (amended): for every negative (i64) address, `get` never fails and
returns 0 (the wrapped index is at least `2^63`, past any real memory
length), while `set` does fail — with a panic whose site depends on the
address: at `-1` the wrapped index is `usize::MAX` and the `pos + 1`
computation itself fails (debug: add overflow; release: wrap to 0,
truncating resize, then index out of bounds), and below `-1` the resize
request exceeds the Vec capacity limit and panics with a capacity
overflow. -/
theorem negative_address_semantics :
    ∀ (e : Emulator) (a v : Int), -(2 ^ 63) ≤ a → a < 0 →
      e.memory.length < 2 ^ 63 →
      e.get a = 0 ∧
      (∃ p : Panic, e.set a v = .error p) ∧
      (a = -1 → e.set a v = .error .usizeOverflow) ∧
      (a < -1 → e.set a v = .error .capacityOverflow) := by
  intro e a v h0 h1 hlen
  have h0' : -9223372036854775808 ≤ a := by
    calc (-9223372036854775808 : Int) = -(2 ^ 63) := by norm_num
    _ ≤ a := h0
  have hlenN : e.memory.length < 9223372036854775808 := by
    calc e.memory.length < 2 ^ 63 := hlen
    _ = 9223372036854775808 := by norm_num
  have hcast : castUsize a = (a + 18446744073709551616).toNat := by
    simp only [castUsize]
    rw [show (2 : Int) ^ 64 = 18446744073709551616 from by norm_num]
    omega
  have hget : e.get a = 0 := by
    unfold Emulator.get
    exact List.getD_eq_default _ _ (by rw [hcast]; omega)
  have hm1 : a = -1 → e.set a v = .error .usizeOverflow := by
    intro ha
    subst ha
    unfold Emulator.set Emulator.make_pointer
    rw [show castUsize (-1) = 2 ^ 64 - 1 from by decide]
    rw [if_pos (by
      rw [show (2 : Nat) ^ 64 - 1 = 18446744073709551615 from by norm_num]
      omega)]
    rw [if_pos rfl]
    rfl
  have hlt : a < -1 → e.set a v = .error .capacityOverflow := by
    intro ha
    unfold Emulator.set Emulator.make_pointer
    rw [if_pos (by rw [hcast]; omega)]
    rw [if_neg (by
      rw [hcast, show (2 : Nat) ^ 64 - 1 = 18446744073709551615 from by norm_num]
      omega)]
    rw [if_pos (by
      rw [hcast, show (2 : Nat) ^ 63 - 1 = 9223372036854775807 from by norm_num]
      omega)]
    rfl
  refine ⟨hget, ?_, hm1, hlt⟩
  rcases (by omega : a = -1 ∨ a < -1) with ha | ha
  · exact ⟨_, hm1 ha⟩
  · exact ⟨_, hlt ha⟩

/-- C8, witness: the amended theorem applied to memory `[9]`, addresses `-1`
(usize-add overflow) and `-2` (capacity overflow), value 7. -/
theorem negative_address_semantics_witness :
    (Emulator.new ⟨[9]⟩).get (-1) = 0 ∧
    (Emulator.new ⟨[9]⟩).set (-1) 7 = .error .usizeOverflow ∧
    (Emulator.new ⟨[9]⟩).set (-2) 7 = .error .capacityOverflow :=
  ⟨(negative_address_semantics _ (-1) 7 (by norm_num) (by norm_num) (by decide)).1,
   (negative_address_semantics _ (-1) 7 (by norm_num) (by norm_num) (by decide)).2.2.1 rfl,
   (negative_address_semantics _ (-2) 7 (by norm_num) (by norm_num) (by decide)).2.2.2
     (by norm_num)⟩

/-- C9: resolving a write target with `pointer` reaches the
invalid-parameter panic exactly for Immediate parameters: for Position and
Relative parameters the result is either a valid pointer or one of the two
panics of the underlying `make_pointer` (the usize-add overflow at index
`usize::MAX`, or the resize capacity overflow), never the invalid-parameter
panic — so under the precondition that every write target decodes to
Position or Relative, that panic branch is unreachable; an Immediate write
target always hard-fails with it. -/
theorem pointer_panic_only_for_immediate :
    (∀ (e : Emulator) (w : Int),
      ((∃ r, e.pointer (.Position w) = .ok r) ∨
        e.pointer (.Position w) = .error .usizeOverflow ∨
        e.pointer (.Position w) = .error .capacityOverflow) ∧
      ((∃ r, e.pointer (.Relative w) = .ok r) ∨
        e.pointer (.Relative w) = .error .usizeOverflow ∨
        e.pointer (.Relative w) = .error .capacityOverflow)) ∧
    (∀ (e : Emulator) (w : Int),
      e.pointer (.Immediate w) = .error .invalidPointerParam) := by
  constructor
  · intro e w
    constructor
    · cases hmp : e.make_pointer (castUsize w) with
      | ok e2 =>
          left
          exact ⟨(e2, castUsize w), by simp [Emulator.pointer, hmp, Except.map]⟩
      | error pc =>
          right
          rcases make_pointer_error hmp with hpc | hpc <;>
            [left; right] <;>
            simp [Emulator.pointer, hmp, Except.map, hpc]
    · cases hmp : e.make_pointer (castUsize (e.sp + w)) with
      | ok e2 =>
          left
          exact ⟨(e2, castUsize (e.sp + w)), by simp [Emulator.pointer, hmp, Except.map]⟩
      | error pc =>
          right
          rcases make_pointer_error hmp with hpc | hpc <;>
            [left; right] <;>
            simp [Emulator.pointer, hmp, Except.map, hpc]
  · intro e w
    rfl

/-- C10: suspension is atomic: whenever `step` returns ReadWait, the
resulting machine is exactly the starting machine — memory, ip, sp and both
queues included; no partial effect of the Read instruction is visible. -/
theorem step_readwait_frame :
    ∀ (e e' : Emulator), e.step = .ok (State.ReadWait, e') → e' = e := by
  intro e e' h
  unfold Emulator.step at h
  cases hf : e.fetch e.ip with
  | error p =>
      rw [hf] at h
      exact Except.noConfusion h
  | ok op =>
      rw [hf] at h
      cases op with
      | Add a b c =>
          obtain ⟨e2, hx, hfe⟩ := map_eq_ok h
          exact State.noConfusion (congrArg Prod.fst hfe)
      | Mul a b c =>
          obtain ⟨e2, hx, hfe⟩ := map_eq_ok h
          exact State.noConfusion (congrArg Prod.fst hfe)
      | LessThan a b c =>
          obtain ⟨e2, hx, hfe⟩ := map_eq_ok h
          exact State.noConfusion (congrArg Prod.fst hfe)
      | Equal a b c =>
          obtain ⟨e2, hx, hfe⟩ := map_eq_ok h
          exact State.noConfusion (congrArg Prod.fst hfe)
      | Read a =>
          cases hin : e.input_buffer with
          | nil =>
              rw [hin] at h
              injection h with h
              injection h with h1 h2
              exact h2.symm
          | cons v rest =>
              rw [hin] at h
              obtain ⟨e2, hx, hfe⟩ := map_eq_ok h
              exact State.noConfusion (congrArg Prod.fst hfe)
      | Write a =>
          injection h with h
          exact State.noConfusion (congrArg Prod.fst h)
      | JumpIfTrue t d =>
          have h' : (if e.value t ≠ 0 then
                (Except.ok (State.Continue, { e with ip := e.value d }) :
                  Except Panic (State × Emulator))
              else .ok (State.Continue,
                { e with ip := e.ip + (Op.JumpIfTrue t d).size }))
              = .ok (State.ReadWait, e') := h
          split at h' <;>
          · injection h' with h'
            exact State.noConfusion (congrArg Prod.fst h')
      | JumpIfFalse t d =>
          have h' : (if e.value t = 0 then
                (Except.ok (State.Continue, { e with ip := e.value d }) :
                  Except Panic (State × Emulator))
              else .ok (State.Continue,
                { e with ip := e.ip + (Op.JumpIfFalse t d).size }))
              = .ok (State.ReadWait, e') := h
          split at h' <;>
          · injection h' with h'
            exact State.noConfusion (congrArg Prod.fst h')
      | AdjustBase a =>
          injection h with h
          exact State.noConfusion (congrArg Prod.fst h)
      | Halt =>
          injection h with h
          exact State.noConfusion (congrArg Prod.fst h)

/-- C10, witness: program `3,0` with an empty input queue suspends and is
unchanged. -/
theorem step_readwait_frame_witness :
    (Emulator.new ⟨[3, 0]⟩).step = .ok (State.ReadWait, Emulator.new ⟨[3, 0]⟩) ∧
    Emulator.new ⟨[3, 0]⟩ = Emulator.new ⟨[3, 0]⟩ :=
  ⟨by decide, step_readwait_frame _ _ (by decide)⟩


/-- C4: Halt is idempotent: if the instruction at `ip` decodes to Halt,
`step` returns Halt and leaves the machine (memory, ip, sp, both queues)
unchanged, and `run` does the same for any fuel; concretely, running
`1,0,0,0,99` to completion yields memory `[2,0,0,0,99]` with ip 4, and
running the halted machine again returns Halt with the same state. -/
theorem halt_idempotent :
    (∀ e : Emulator, e.fetch e.ip = .ok Op.Halt →
      e.step = .ok (State.Halt, e) ∧
      ∀ n : Nat, e.run (n + 1) = some (.ok (State.Halt, e))) ∧
    ((Emulator.new ⟨[1, 0, 0, 0, 99]⟩).run 2 =
      some (.ok (State.Halt, Emulator.mk [2, 0, 0, 0, 99] 4 0 [] [])) ∧
     (Emulator.mk [2, 0, 0, 0, 99] 4 0 [] []).run 1 =
      some (.ok (State.Halt, Emulator.mk [2, 0, 0, 0, 99] 4 0 [] []))) := by
  constructor
  · intro e h
    have hstep : e.step = .ok (State.Halt, e) := by
      unfold Emulator.step
      rw [h]
    refine ⟨hstep, ?_⟩
    intro n
    simp [Emulator.run, hstep]
  · exact ⟨by decide, by decide⟩

/-- C4, witness: the Halt part applied to the one-instruction program `99`. -/
theorem halt_idempotent_witness :
    (Emulator.new ⟨[99]⟩).step = .ok (State.Halt, Emulator.new ⟨[99]⟩) ∧
    (Emulator.new ⟨[99]⟩).run 1 = some (.ok (State.Halt, Emulator.new ⟨[99]⟩)) :=
  ⟨(halt_idempotent.1 _ (by decide)).1, (halt_idempotent.1 _ (by decide)).2 0⟩

/-- C5: a JumpIfTrue whose first parameter is nonzero, and a JumpIfFalse
whose first parameter is zero, set `ip` to the second parameter's value and
return Continue without adding the instruction size; a branch not taken
advances `ip` by exactly 3 and changes nothing else. -/
theorem jump_semantics :
    ∀ (e : Emulator) (t d : Param),
      (e.fetch e.ip = .ok (Op.JumpIfTrue t d) →
        (e.value t ≠ 0 → e.step = .ok (State.Continue, { e with ip := e.value d })) ∧
        (e.value t = 0 → e.step = .ok (State.Continue, { e with ip := e.ip + 3 }))) ∧
      (e.fetch e.ip = .ok (Op.JumpIfFalse t d) →
        (e.value t = 0 → e.step = .ok (State.Continue, { e with ip := e.value d })) ∧
        (e.value t ≠ 0 → e.step = .ok (State.Continue, { e with ip := e.ip + 3 }))) := by
  intro e t d
  constructor
  · intro h
    have hstep : e.step = (if e.value t ≠ 0 then
        (Except.ok (State.Continue, { e with ip := e.value d }) :
          Except Panic (State × Emulator))
        else .ok (State.Continue, { e with ip := e.ip + (Op.JumpIfTrue t d).size })) := by
      unfold Emulator.step
      rw [h]
    constructor
    · intro hv
      rw [hstep, if_pos hv]
    · intro hv
      rw [hstep, if_neg (not_not_intro hv)]
      rfl
  · intro h
    have hstep : e.step = (if e.value t = 0 then
        (Except.ok (State.Continue, { e with ip := e.value d }) :
          Except Panic (State × Emulator))
        else .ok (State.Continue, { e with ip := e.ip + (Op.JumpIfFalse t d).size })) := by
      unfold Emulator.step
      rw [h]
    constructor
    · intro hv
      rw [hstep, if_pos hv]
    · intro hv
      rw [hstep, if_neg hv]
      rfl

/-- C5, witness: `1105,1,7` jumps to 7; `1105,0,7` falls through to ip 3;
`1106,0,9` jumps to 9. -/
theorem jump_semantics_witness :
    (Emulator.new ⟨[1105, 1, 7]⟩).step =
      .ok (State.Continue, { Emulator.new ⟨[1105, 1, 7]⟩ with ip := 7 }) ∧
    (Emulator.new ⟨[1105, 0, 7]⟩).step =
      .ok (State.Continue, { Emulator.new ⟨[1105, 0, 7]⟩ with ip := 3 }) ∧
    (Emulator.new ⟨[1106, 0, 9]⟩).step =
      .ok (State.Continue, { Emulator.new ⟨[1106, 0, 9]⟩ with ip := 9 }) :=
  ⟨((jump_semantics _ (.Immediate 1) (.Immediate 7)).1 (by decide)).1 (by decide),
   ((jump_semantics _ (.Immediate 0) (.Immediate 7)).1 (by decide)).2 (by decide),
   ((jump_semantics _ (.Immediate 0) (.Immediate 9)).2 (by decide)).1 (by decide)⟩


/-- Helper for the Read-with-input branch of `step`: popping the queued value
and storing it through the parameter advances ip by the Read size (2). -/
lemma step_read_cons {e : Emulator} {a : Param} {v : Int} {rest : List Int}
    (hf : e.fetch e.ip = .ok (Op.Read a)) (hin : e.input_buffer = v :: rest)
    {e2 : Emulator} (hstore : ({ e with input_buffer := rest }).store a v = .ok e2) :
    e.step = .ok (State.Continue, { e2 with ip := e2.ip + 2 }) := by
  unfold Emulator.step
  rw [hf, hin]
  show (({ e with input_buffer := rest }).store a v).map
      (fun (e' : Emulator) =>
        (State.Continue, { e' with ip := e'.ip + (Op.Read a).size })) =
    .ok (State.Continue, { e2 with ip := e2.ip + 2 })
  rw [hstore]
  rfl

/-- C3: a machine whose instruction at ip decodes to Read and whose input
queue is empty suspends: `step` (and `run`, for any fuel) returns ReadWait
with the machine unchanged (ip included); after `write v`, stepping again
executes the Read once — `v` is stored at the resolved target (the `store`
hypothesis), ip ends at the original ip plus exactly the Read's size 2, the
input value is consumed, and `run` continues from that state. -/
theorem read_suspend_resume :
    ∀ (e : Emulator) (a : Param),
      e.fetch e.ip = .ok (Op.Read a) → e.input_buffer = [] →
      e.step = .ok (State.ReadWait, e) ∧
      (∀ n : Nat, e.run (n + 1) = some (.ok (State.ReadWait, e))) ∧
      (∀ (v : Int) (e2 : Emulator), e.store a v = .ok e2 →
        (e.write v).step = .ok (State.Continue, { e2 with ip := e2.ip + 2 }) ∧
        e2.ip = e.ip ∧
        e2.input_buffer = [] ∧
        (∀ n : Nat, (e.write v).run (n + 1) = ({ e2 with ip := e2.ip + 2 }).run n)) := by
  intro e a hf hin
  have hstep : e.step = .ok (State.ReadWait, e) := by
    unfold Emulator.step
    rw [hf, hin]
  refine ⟨hstep, ?_, ?_⟩
  · intro n
    simp [Emulator.run, hstep]
  · intro v e2 hstore
    have hew : ({ e.write v with input_buffer := ([] : List Int) } : Emulator) = e := by
      unfold Emulator.write
      cases e with
      | mk m i s ib ob =>
          change ib = [] at hin
          rw [hin]
    have hf' : (e.write v).fetch (e.write v).ip = .ok (Op.Read a) := hf
    have hbuf : (e.write v).input_buffer = v :: [] := by
      show e.input_buffer ++ [v] = v :: []
      rw [hin]
      rfl
    have hstore' : ({ e.write v with input_buffer := ([] : List Int) }).store a v
        = .ok e2 := by
      rw [hew]
      exact hstore
    have hwstep := step_read_cons hf' hbuf hstore'
    refine ⟨hwstep, (store_fields hstore).1, ?_, ?_⟩
    · rw [(store_fields hstore).2.2.1, hin]
    · intro n
      simp [Emulator.run, hwstep]

/-- C3, witness: program `3,1` suspends with empty input; after writing 42
it stores 42 at address 1 and resumes past the Read at ip 2. -/
theorem read_suspend_resume_witness :
    (Emulator.new ⟨[3, 1]⟩).step = .ok (State.ReadWait, Emulator.new ⟨[3, 1]⟩) ∧
    (Emulator.new ⟨[3, 1]⟩).run 1 = some (.ok (State.ReadWait, Emulator.new ⟨[3, 1]⟩)) ∧
    ((Emulator.new ⟨[3, 1]⟩).write 42).step =
      .ok (State.Continue, Emulator.mk [3, 42] 2 0 [] []) ∧
    ((Emulator.new ⟨[3, 1]⟩).write 42).run 1 = (Emulator.mk [3, 42] 2 0 [] []).run 0 :=
  ⟨(read_suspend_resume _ (.Position 1) (by decide) rfl).1,
   (read_suspend_resume _ (.Position 1) (by decide) rfl).2.1 0,
   ((read_suspend_resume _ (.Position 1) (by decide) rfl).2.2 42
      (Emulator.mk [3, 42] 0 0 [] []) (by decide)).1,
   ((read_suspend_resume _ (.Position 1) (by decide) rfl).2.2 42
      (Emulator.mk [3, 42] 0 0 [] []) (by decide)).2.2.2 0⟩

lemma pair_fst {s1 s2 : State} {x y : Emulator} (h : (s1, x) = (s2, y)) :
    s1 = s2 := congrArg Prod.fst h

lemma pair_snd {s1 s2 : State} {x y : Emulator} (h : (s1, x) = (s2, y)) :
    y = x := (congrArg Prod.snd h).symm

lemma ok_pair_fst {s1 s2 : State} {x y : Emulator}
    (h : (Except.ok (s1, x) : Except Panic (State × Emulator)) = .ok (s2, y)) :
    s1 = s2 := by
  injection h with h
  exact congrArg Prod.fst h

lemma ok_pair_snd {s1 s2 : State} {x y : Emulator}
    (h : (Except.ok (s1, x) : Except Panic (State × Emulator)) = .ok (s2, y)) :
    y = x := by
  injection h with h
  exact (congrArg Prod.snd h).symm

/-- C6: Add stores value(a) + value(b) and Mul stores value(a) * value(b)
through the resolved third parameter (the `store` hypothesis), after which
ip advances by exactly 4; every non-jump instruction that returns Continue
advances ip by exactly its instruction size; the size is 1 for Halt and
1 + arity otherwise; and for program `1,9,10,3,2,3,11,0,99,30,40,50` one
step yields memory `[1,9,10,70,...]` and a second step `[3500,9,10,70,...]`,
as in the repository's day02 test. -/
theorem arith_semantics_and_ip_advance :
    (∀ (e : Emulator) (a b c : Param) (e2 : Emulator),
      e.fetch e.ip = .ok (Op.Add a b c) →
      e.store c (e.value a + e.value b) = .ok e2 →
      e.step = .ok (State.Continue, { e2 with ip := e2.ip + 4 })) ∧
    (∀ (e : Emulator) (a b c : Param) (e2 : Emulator),
      e.fetch e.ip = .ok (Op.Mul a b c) →
      e.store c (e.value a * e.value b) = .ok e2 →
      e.step = .ok (State.Continue, { e2 with ip := e2.ip + 4 })) ∧
    (∀ (e e' : Emulator) (op : Op),
      e.fetch e.ip = .ok op → op.isJump = false →
      e.step = .ok (State.Continue, e') →
      e'.ip = e.ip + op.size) ∧
    (∀ op : Op, op.size = if op = Op.Halt then 1 else 1 + op.arity) ∧
    ((Emulator.new ⟨[1, 9, 10, 3, 2, 3, 11, 0, 99, 30, 40, 50]⟩).step =
        .ok (State.Continue,
          Emulator.mk [1, 9, 10, 70, 2, 3, 11, 0, 99, 30, 40, 50] 4 0 [] []) ∧
      (Emulator.mk [1, 9, 10, 70, 2, 3, 11, 0, 99, 30, 40, 50] 4 0 [] []).step =
        .ok (State.Continue,
          Emulator.mk [3500, 9, 10, 70, 2, 3, 11, 0, 99, 30, 40, 50] 8 0 [] [])) := by
  refine ⟨?_, ?_, ?_, ?_, by decide, by decide⟩
  · intro e a b c e2 hf hstore
    unfold Emulator.step
    rw [hf]
    show (e.store c (e.value a + e.value b)).map
        (fun (x : Emulator) =>
          (State.Continue, { x with ip := x.ip + (Op.Add a b c).size })) =
      .ok (State.Continue, { e2 with ip := e2.ip + 4 })
    rw [hstore]
    rfl
  · intro e a b c e2 hf hstore
    unfold Emulator.step
    rw [hf]
    show (e.store c (e.value a * e.value b)).map
        (fun (x : Emulator) =>
          (State.Continue, { x with ip := x.ip + (Op.Mul a b c).size })) =
      .ok (State.Continue, { e2 with ip := e2.ip + 4 })
    rw [hstore]
    rfl
  · intro e e' op hf hj hs
    unfold Emulator.step at hs
    rw [hf] at hs
    cases op with
    | Add a b c =>
        have hs' : (e.store c (e.value a + e.value b)).map
            (fun (x : Emulator) =>
              (State.Continue, { x with ip := x.ip + (Op.Add a b c).size })) =
          .ok (State.Continue, e') := hs
        obtain ⟨e2, hx, hfe⟩ := map_eq_ok hs'
        rw [pair_snd hfe]
        show e2.ip + (Op.Add a b c).size = e.ip + (Op.Add a b c).size
        rw [(store_fields hx).1]
    | Mul a b c =>
        have hs' : (e.store c (e.value a * e.value b)).map
            (fun (x : Emulator) =>
              (State.Continue, { x with ip := x.ip + (Op.Mul a b c).size })) =
          .ok (State.Continue, e') := hs
        obtain ⟨e2, hx, hfe⟩ := map_eq_ok hs'
        rw [pair_snd hfe]
        show e2.ip + (Op.Mul a b c).size = e.ip + (Op.Mul a b c).size
        rw [(store_fields hx).1]
    | LessThan a b c =>
        have hs' : (e.store c (if e.value a < e.value b then 1 else 0)).map
            (fun (x : Emulator) =>
              (State.Continue, { x with ip := x.ip + (Op.LessThan a b c).size })) =
          .ok (State.Continue, e') := hs
        obtain ⟨e2, hx, hfe⟩ := map_eq_ok hs'
        rw [pair_snd hfe]
        show e2.ip + (Op.LessThan a b c).size = e.ip + (Op.LessThan a b c).size
        rw [(store_fields hx).1]
    | Equal a b c =>
        have hs' : (e.store c (if e.value a = e.value b then 1 else 0)).map
            (fun (x : Emulator) =>
              (State.Continue, { x with ip := x.ip + (Op.Equal a b c).size })) =
          .ok (State.Continue, e') := hs
        obtain ⟨e2, hx, hfe⟩ := map_eq_ok hs'
        rw [pair_snd hfe]
        show e2.ip + (Op.Equal a b c).size = e.ip + (Op.Equal a b c).size
        rw [(store_fields hx).1]
    | Read a =>
        cases hin : e.input_buffer with
        | nil =>
            rw [hin] at hs
            have hs' : (Except.ok (State.ReadWait, e) :
                Except Panic (State × Emulator)) = .ok (State.Continue, e') := hs
            exact State.noConfusion (ok_pair_fst hs')
        | cons v rest =>
            rw [hin] at hs
            have hs' : (({ e with input_buffer := rest }).store a v).map
                (fun (x : Emulator) =>
                  (State.Continue, { x with ip := x.ip + (Op.Read a).size })) =
              .ok (State.Continue, e') := hs
            obtain ⟨e2, hx, hfe⟩ := map_eq_ok hs'
            rw [pair_snd hfe]
            show e2.ip + (Op.Read a).size = e.ip + (Op.Read a).size
            rw [(store_fields hx).1]
    | Write a =>
        have hs' : (Except.ok (State.Continue,
            { e with output_buffer := e.output_buffer ++ [e.value a],
                     ip := e.ip + (Op.Write a).size }) :
            Except Panic (State × Emulator)) = .ok (State.Continue, e') := hs
        rw [ok_pair_snd hs']
    | JumpIfTrue t d => simp [Op.isJump] at hj
    | JumpIfFalse t d => simp [Op.isJump] at hj
    | AdjustBase a =>
        have hs' : (Except.ok (State.Continue,
            { e with sp := e.sp + e.value a,
                     ip := e.ip + (Op.AdjustBase a).size }) :
            Except Panic (State × Emulator)) = .ok (State.Continue, e') := hs
        rw [ok_pair_snd hs']
    | Halt =>
        have hs' : (Except.ok (State.Halt, e) :
            Except Panic (State × Emulator)) = .ok (State.Continue, e') := hs
        exact State.noConfusion (ok_pair_fst hs')
  · intro op
    cases op <;> simp [Op.size, Op.arity]

/-- C6, witness: the Add part and the ip-advance part applied to the first
step of the day02 example program. -/
theorem arith_semantics_and_ip_advance_witness :
    (Emulator.new ⟨[1, 9, 10, 3, 2, 3, 11, 0, 99, 30, 40, 50]⟩).step =
      .ok (State.Continue,
        Emulator.mk [1, 9, 10, 70, 2, 3, 11, 0, 99, 30, 40, 50] 4 0 [] []) ∧
    (Emulator.mk [1, 9, 10, 70, 2, 3, 11, 0, 99, 30, 40, 50] 4 0 [] []).ip =
      (Emulator.new ⟨[1, 9, 10, 3, 2, 3, 11, 0, 99, 30, 40, 50]⟩).ip +
        (Op.Add (.Position 9) (.Position 10) (.Position 3)).size :=
  ⟨arith_semantics_and_ip_advance.1 _ (.Position 9) (.Position 10) (.Position 3)
      (Emulator.mk [1, 9, 10, 70, 2, 3, 11, 0, 99, 30, 40, 50] 0 0 [] [])
      (by decide) (by decide),
   arith_semantics_and_ip_advance.2.2.1 _
      (Emulator.mk [1, 9, 10, 70, 2, 3, 11, 0, 99, 30, 40, 50] 4 0 [] [])
      (Op.Add (.Position 9) (.Position 10) (.Position 3))
      (by decide) (by decide) (by decide)⟩

/-- C7 (code bug evidence): `Program::from_str` declares
`type Err = ParseIntError` but parses each token with `.unwrap()`, so a
malformed token such as the `x` in `"1,x,3"` panics inside `from_str`
(outer `none`) instead of being surfaced to the caller as a returned error;
indeed no input whatsoever makes `from_str` return an `Err` value. -/
theorem from_str_panics_not_returns_error :
    Program.from_str "1,x,3" = none ∧
    (∀ s : String, Program.from_str s = none ∨
      ∃ p : Program, Program.from_str s = some (.ok p)) := by
  constructor
  · rfl
  · intro s
    cases h : (splitComma s.toList).mapM parseI64 with
    | none =>
        left
        unfold Program.from_str
        rw [h]
    | some code =>
        right
        refine ⟨⟨code⟩, ?_⟩
        unfold Program.from_str
        rw [h]

end Intcode

